import Mathlib

/-!
# Verification of the genji core: index encoding, catalog, and query parser

This development gives a shallow embedding of the core of the genji embeddable
database — the secondary-index key encoding (`engine/bolt/index.go`), the
table-info catalog (`database/config.go`), and the SQL-like query parser — and
proves or refutes the specified properties over that embedding.

Bytes are modelled as natural numbers (each byte a value `< 256` in practice;
no arithmetic ever wraps here, only equality and ordering of byte sequences
matter), byte strings as `List Nat`.
-/

deriving instance DecidableEq for Except

/-- A byte string (Go `[]byte`). -/
abbrev Bytes := List Nat

/-- Strict lexicographic order on byte strings, the key order of the
underlying ordered KV store (spec §6.1: keys are ordered by lexicographic
comparison). -/
def lexLtB : Bytes → Bytes → Bool
  | [], [] => false
  | [], _ :: _ => true
  | _ :: _, [] => false
  | a :: as, b :: bs => if a < b then true else if b < a then false else lexLtB as bs

/-! ## The ordered KV store (external collaborator)

Modelled from the spec: the underlying KV engine (spec §6.1) is an ordered
byte-keyed store with point get/put/delete and in-order iteration.  A store is
an association list sorted by `lexLtB` on keys; `kvPut` inserts keeping the
order (and replaces on an equal key), so the iterator of spec §6.1 is simply
the list itself. -/

/-- Modelled from the spec: `Store.Get` of the KV contract (§6.1), first entry with the given key, if any. -/
def kvGet {V : Type} : List (Bytes × V) → Bytes → Option V
  | [], _ => none
  | (k', v) :: rest, k => if k' = k then some v else kvGet rest k

/-- Modelled from the spec: `Store.Put` of the KV contract (§6.1), ordered insert, replacing an entry with an equal key. -/
def kvPut {V : Type} : List (Bytes × V) → Bytes → V → List (Bytes × V)
  | [], k, v => [(k, v)]
  | (k', v') :: rest, k, v =>
    if lexLtB k k' then (k, v) :: (k', v') :: rest
    else if k = k' then (k, v) :: rest
    else (k', v') :: kvPut rest k v

theorem kvGet_put_self {V : Type} (s : List (Bytes × V)) (k : Bytes) (v : V) :
    kvGet (kvPut s k v) k = some v := by
  induction s with
  | nil => simp [kvPut, kvGet]
  | cons e rest ih =>
    obtain ⟨k', v'⟩ := e
    by_cases hlt : lexLtB k k'
    · simp [kvPut, hlt, kvGet]
    · by_cases heq : k = k'
      · subst heq
        simp [kvPut, hlt, kvGet]
      · have hne : k' ≠ k := fun h => heq h.symm
        simp [kvPut, hlt, heq, kvGet, hne, ih]

theorem kvGet_put_other {V : Type} (s : List (Bytes × V)) (k k' : Bytes) (v : V)
    (h : k' ≠ k) : kvGet (kvPut s k v) k' = kvGet s k' := by
  have hne : k ≠ k' := fun hh => h hh.symm
  induction s with
  | nil => simp [kvPut, kvGet, hne]
  | cons e rest ih =>
    obtain ⟨k₀, v₀⟩ := e
    by_cases hlt : lexLtB k k₀
    · simp [kvPut, hlt, kvGet, hne]
    · by_cases heq : k = k₀
      · subst heq
        simp [kvPut, hlt, kvGet, hne]
      · simp [kvPut, hlt, heq, kvGet, ih]

/-! ## Index encoding (`engine/bolt/index.go`) -/

/-- Model of `bytes.LastIndexByte` from the Go standard library: index of the last
occurrence of `b` in `k`, `-1` when absent. -/
def lastIndexByte : Bytes → Nat → Int
  | [], _ => -1
  | a :: rest, b =>
    let r := lastIndexByte rest b
    if 0 ≤ r then r + 1 else if a = b then 0 else -1

/-- The index separator byte: `'_'` (0x5F), appended between the indexed value
and the rowid by `Index.Set`. -/
def sepByte : Nat := 95

/-- The composite key built by `Index.Set`: `value ‖ 0x5F ‖ rowid`. -/
def compositeKey (value rowid : Bytes) : Bytes := value ++ sepByte :: rowid

/-- Error surface of the index layer.  `valueEmpty` models the
"value cannot be nil" error of `Index.Set`. -/
inductive IdxErr where
  | valueEmpty
deriving DecidableEq

/-- Model of `Index.Set`: rejects an empty value, otherwise writes the composite key
with the rowid as stored value into the index bucket. -/
def indexSet (bucket : List (Bytes × Bytes)) (value rowid : Bytes) :
    Except IdxErr (List (Bytes × Bytes)) :=
  if value = [] then .error .valueEmpty
  else .ok (kvPut bucket (compositeKey value rowid) rowid)

/-- The value component a cursor returns for a stored key:
`value[:bytes.LastIndexByte(value, '_')]`.  `none` models the Go slice panic
`value[:-1]` that would occur on a key with no separator byte (keys written by
`Index.Set` always contain one). -/
def cursorKeyValue (k : Bytes) : Option Bytes :=
  let i := lastIndexByte k sepByte
  if i < 0 then none else some (k.take i.toNat)

/-! ## The bolt bucket cursor (external collaborator)

Modelled from the spec: the KV iterator of spec §6.1 over the sorted entries
of a bucket.  Position encoding over a bucket of `n` entries: `0` is before
the first entry, `i+1` is at entry `i`, `n+1` is past the last entry. -/

/-- A bbolt bucket cursor: the bucket's sorted entries plus a position. -/
structure BoltCursor where
  keys : List (Bytes × Bytes)
  pos : Nat
deriving DecidableEq

/-- The entry at position `p` (positions `1..n` hold entries). -/
def boltElemAt (c : BoltCursor) (p : Nat) : Option (Bytes × Bytes) :=
  if 1 ≤ p then c.keys.get? (p - 1) else none

/-- Modelled from the spec: `bolt.Cursor.First` per the iterator contract. -/
def boltFirst (c : BoltCursor) : BoltCursor × Option (Bytes × Bytes) :=
  (⟨c.keys, 1⟩, boltElemAt c 1)

/-- Modelled from the spec: `bolt.Cursor.Last` per the iterator contract. -/
def boltLast (c : BoltCursor) : BoltCursor × Option (Bytes × Bytes) :=
  (⟨c.keys, c.keys.length⟩, boltElemAt c c.keys.length)

/-- Modelled from the spec: `bolt.Cursor.Next` — advance, clamping past the end. -/
def boltNext (c : BoltCursor) : BoltCursor × Option (Bytes × Bytes) :=
  let p := min (c.pos + 1) (c.keys.length + 1)
  (⟨c.keys, p⟩, boltElemAt c p)

/-- Modelled from the spec: `bolt.Cursor.Prev` — step back, clamping before the start. -/
def boltPrev (c : BoltCursor) : BoltCursor × Option (Bytes × Bytes) :=
  let p := c.pos - 1
  (⟨c.keys, p⟩, boltElemAt c p)

/-- Modelled from the spec: `bolt.Cursor.Seek` — first entry with key ≥ the prefix. -/
def boltSeek (c : BoltCursor) (pre : Bytes) : BoltCursor × Option (Bytes × Bytes) :=
  let p := (c.keys.findIdx fun e => ¬ lexLtB e.1 pre) + 1
  (⟨c.keys, p⟩, boltElemAt c p)

/-! ## The genji index cursor (`engine/bolt/index.go`, type `Cursor`)

Each positioning call returns `none` for the `(nil, nil)` end sentinel, and
otherwise `some (value, rowid)` where `value` is the composite key cut at the
last separator byte (itself an `Option` whose `none` case models the slice
panic on a separator-free key, never reached for keys written by
`Index.Set`). -/

/-- Trim a raw bolt result to the `(value, rowid)` pair the genji cursor
returns. -/
def trimResult (r : Option (Bytes × Bytes)) : Option (Option Bytes × Bytes) :=
  r.map fun e => (cursorKeyValue e.1, e.2)

/-- Model of `Cursor.First`. -/
def cFirst (c : BoltCursor) : BoltCursor × Option (Option Bytes × Bytes) :=
  let (c', r) := boltFirst c
  (c', trimResult r)

/-- Model of `Cursor.Last`. -/
def cLast (c : BoltCursor) : BoltCursor × Option (Option Bytes × Bytes) :=
  let (c', r) := boltLast c
  (c', trimResult r)

/-- Model of `Cursor.Next`: on a nil bolt result, resets the underlying cursor with
`c.c.Last()` and returns the end sentinel. -/
def cNext (c : BoltCursor) : BoltCursor × Option (Option Bytes × Bytes) :=
  let (c', r) := boltNext c
  match r with
  | none => ((boltLast c').1, none)
  | some e => (c', some (cursorKeyValue e.1, e.2))

/-- Model of `Cursor.Prev`: on a nil bolt result, resets the underlying cursor with
`c.c.First()` and returns the end sentinel. -/
def cPrev (c : BoltCursor) : BoltCursor × Option (Option Bytes × Bytes) :=
  let (c', r) := boltPrev c
  match r with
  | none => ((boltFirst c').1, none)
  | some e => (c', some (cursorKeyValue e.1, e.2))

/-- Model of `Cursor.Seek`. -/
def cSeek (c : BoltCursor) (pre : Bytes) : BoltCursor × Option (Option Bytes × Bytes) :=
  let (c', r) := boltSeek c pre
  (c', trimResult r)

/-! ## Index encoding lemmas -/

theorem lastIndexByte_of_not_mem {l : Bytes} {b : Nat} (h : b ∉ l) :
    lastIndexByte l b = -1 := by
  induction l with
  | nil => rfl
  | cons a rest ih =>
    have hb : ¬ a = b := by
      rintro rfl
      exact h (List.mem_cons_self a rest)
    have hr : b ∉ rest := fun hm => h (List.mem_cons_of_mem a hm)
    simp [lastIndexByte, ih hr, hb]

theorem lastIndexByte_compositeKey (v r : Bytes) (hr : sepByte ∉ r) :
    lastIndexByte (compositeKey v r) sepByte = (v.length : Int) := by
  induction v with
  | nil =>
    simp [compositeKey, lastIndexByte, lastIndexByte_of_not_mem hr]
  | cons a v ih =>
    have : compositeKey (a :: v) r = a :: compositeKey v r := rfl
    rw [this]
    simp [lastIndexByte, ih]

theorem cursorKeyValue_compositeKey (v r : Bytes) (hr : sepByte ∉ r) :
    cursorKeyValue (compositeKey v r) = some v := by
  unfold cursorKeyValue
  rw [lastIndexByte_compositeKey v r hr]
  have h0 : ¬ ((v.length : Int) < 0) := by omega
  simp only [h0, if_false, Int.toNat_natCast]
  rw [show compositeKey v r = v ++ sepByte :: r from rfl, List.take_left v (sepByte :: r)]

/-! ## Documents and values (external collaborator)

Modelled from the spec: the `document` package of the repository is outside
`src/` and is declared an external collaborator (spec §1, §3).  A `DValue` is
the tagged union of spec §3; a document is its ordered field→value list
(`document.FieldBuffer`, whose `Add` appends and whose `GetByField` returns
the first binding).  Conversions succeed exactly on a value of the requested
type, as in every call site the catalog executes. -/

/-- Modelled from the spec: the tagged value union of §3 (document package, not under `src/`). -/
inductive DValue where
  | vnull
  | vbool (b : Bool)
  | vint (n : Int)
  | vfloat (q : Rat)
  | vtext (s : String)
  | vblob (b : Bytes)
  | vdoc (fields : List (String × DValue))
  | varray (elems : List DValue)

/-- Modelled from the spec: an ordered document, field/value pairs in insertion order (`document.FieldBuffer`). -/
abbrev Doc := List (String × DValue)

/-- Error surface of the catalog (spec §6.4 subset reached by the modelled
operations).  `storeIDCandidatesSpent` is a modelling artifact standing for
the unbounded retry loop of `tableInfoStore.Insert` running out of the finite
list of generator outputs supplied to the model; no Go error corresponds to
it and no theorem relies on it. -/
inductive CatErr where
  | fieldNotFound
  | typeMismatch
  | tableNotFound
  | tableAlreadyExists
  | storeIDCandidatesSpent
deriving DecidableEq

/-- Modelled from the spec: `FieldBuffer.GetByField` of the document package (not under `src/`), first binding of the field. -/
def getByField : Doc → String → Except CatErr DValue
  | [], _ => .error .fieldNotFound
  | (f, v) :: rest, g => if f = g then .ok v else getByField rest g

/-- Modelled from the spec: `Value.ConvertToArray` of the document package. -/
def convertToArray : DValue → Except CatErr (List DValue)
  | .varray a => .ok a
  | _ => .error .typeMismatch

/-- Modelled from the spec: `Value.ConvertToDocument` of the document package. -/
def convertToDocument : DValue → Except CatErr Doc
  | .vdoc d => .ok d
  | _ => .error .typeMismatch

/-- Modelled from the spec: `Value.ConvertToInt64` of the document package. -/
def convertToInt64 : DValue → Except CatErr Int
  | .vint n => .ok n
  | _ => .error .typeMismatch

/-- Modelled from the spec: `Value.ConvertToBool` of the document package. -/
def convertToBool : DValue → Except CatErr Bool
  | .vbool b => .ok b
  | _ => .error .typeMismatch

/-- Modelled from the spec: `Value.ConvertToText` of the document package. -/
def convertToText : DValue → Except CatErr String
  | .vtext s => .ok s
  | _ => .error .typeMismatch

/-- Modelled from the spec: `Value.ConvertToBlob` of the document package. -/
def convertToBlob : DValue → Except CatErr Bytes
  | .vblob b => .ok b
  | _ => .error .typeMismatch

/-! ## The catalog (`database/config.go`)

`encoding.EncodeDocument` / `encoding.EncodedDocument` (the byte serialisation
of documents, an external collaborator) are modelled as the identity: a KV
value in the table-info store is the document itself, which is what decoding
an encoded document yields back. -/

/-- Model of `FieldConstraint` (`database/config.go`): constraints on one field.
`typ` is the Go `document.ValueType`, an integer tag. -/
structure FieldConstraintM where
  path : List String
  typ : Int
  isPrimaryKey : Bool
  isNotNull : Bool
deriving DecidableEq

/-- Model of `TableConfig`: the list of field constraints. -/
abbrev TableConfigM := List FieldConstraintM

/-- Model of `valuePathToArray`: a value path as an array of text values. -/
def valuePathToArray (p : List String) : List DValue := p.map .vtext

/-- Model of `arrayToValuePath`: converts each element of the array to text. -/
def arrayToValuePath (v : DValue) : Except CatErr (List String) := do
  let a ← convertToArray v
  a.mapM convertToText

/-- Model of `FieldConstraint.ToDocument`. -/
def fcToDocument (f : FieldConstraintM) : Doc :=
  [("path", .varray (valuePathToArray f.path)),
   ("type", .vint f.typ),
   ("is_primary_key", .vbool f.isPrimaryKey),
   ("is_not_null", .vbool f.isNotNull)]

/-- Model of `FieldConstraint.ScanDocument`. -/
def fcScanDocument (d : Doc) : Except CatErr FieldConstraintM := do
  let v ← getByField d "path"
  let p ← arrayToValuePath v
  let v ← getByField d "type"
  let t ← convertToInt64 v
  let v ← getByField d "is_primary_key"
  let pk ← convertToBool v
  let v ← getByField d "is_not_null"
  let nn ← convertToBool v
  .ok ⟨p, t, pk, nn⟩

/-- Model of `TableConfig.ToDocument`. -/
def tableConfigToDocument (t : TableConfigM) : Doc :=
  [("field_constraints", .varray (t.map fun fc => .vdoc (fcToDocument fc)))]

/-- Model of `TableConfig.ScanDocument`: reads `field_constraints` and scans each
element (the Go code allocates a slice of the array's length and fills it by
indexed iteration; the net effect is an indexwise scan of the elements). -/
def tableConfigScanDocument (d : Doc) : Except CatErr TableConfigM := do
  let v ← getByField d "field_constraints"
  let a ← convertToArray v
  a.mapM fun x => do
    let doc ← convertToDocument x
    fcScanDocument doc

/-- Model of `tableInfo` (`database/config.go`): the generated 6-byte store id plus the
table configuration. -/
structure TableInfoM where
  storeID : Bytes
  cfg : TableConfigM
deriving DecidableEq

/-- Model of `tableInfo.ToDocument`. -/
def tiToDocument (ti : TableInfoM) : Doc :=
  [("storeID", .vblob ti.storeID),
   ("config", .vdoc (tableConfigToDocument ti.cfg))]

/-- Model of `tableInfo.ScanDocument`: `copy(ti.storeID[:], b)` copies at most six
bytes of the blob into a zeroed six-byte array. -/
def tiScanDocument (d : Doc) : Except CatErr TableInfoM := do
  let v ← getByField d "storeID"
  let b ← convertToBlob v
  let sid := b.take 6 ++ List.replicate (6 - b.length) 0
  let v ← getByField d "config"
  let doc ← convertToDocument v
  let cfg ← tableConfigScanDocument doc
  .ok ⟨sid, cfg⟩

/-- Model of `generateStoreID`: four big-endian bytes of the Unix second, then two
random bytes. -/
def generateStoreID (sec r1 r2 : Nat) : Bytes :=
  [sec % 2 ^ 32 / 2 ^ 24, sec % 2 ^ 32 / 2 ^ 16 % 256,
   sec % 2 ^ 32 / 2 ^ 8 % 256, sec % 2 ^ 32 % 256, r1 % 256, r2 % 256]

/-- The table-info store: the `__genji_tables` bucket, keyed by table name
(as bytes), holding encoded `tableInfo` documents. -/
abbrev TIStore := List (Bytes × Doc)

/-- Model of `tableInfoStore.Get`: decodes the stored document, `TableNotFound` when
the name is absent. -/
def tisGet (s : TIStore) (name : Bytes) : Except CatErr TableInfoM :=
  match kvGet s name with
  | none => .error .tableNotFound
  | some d => tiScanDocument d

/-- Model of `tableInfoStore.Insert`.  The nondeterministic `generateStoreID` loop is
fed by `cands`, the stream of generator outputs: the loop takes the first
candidate `id` for which `t.st.Get(id[:])` fails with key-not-found — note
the lookup is of `id` as a *key of the same store*, whose keys are table
names.  The pair returned is (result, store after the call). -/
def tisInsert (s : TIStore) (name : Bytes) (cfg : TableConfigM)
    (cands : List Bytes) : Except CatErr TableInfoM × TIStore :=
  if (kvGet s name).isSome then (.error .tableAlreadyExists, s)
  else
    match cands.find? fun id => (kvGet s id).isNone with
    | none => (.error .storeIDCandidatesSpent, s)
    | some id => (.ok ⟨id, cfg⟩, kvPut s name (tiToDocument ⟨id, cfg⟩))

/-- Model of `tableInfoStore.Replace`: decodes the existing entry, swaps its
configuration, re-encodes and overwrites. -/
def tisReplace (s : TIStore) (name : Bytes) (cfg : TableConfigM) :
    Except CatErr Unit × TIStore :=
  match tisGet s name with
  | .error e => (.error e, s)
  | .ok ti => (.ok (), kvPut s name (tiToDocument ⟨ti.storeID, cfg⟩))

/-- Model of `tableInfoStore.Delete`. -/
def tisDelete (s : TIStore) (name : Bytes) : Except CatErr Unit × TIStore :=
  match kvGet s name with
  | none => (.error .tableNotFound, s)
  | some _ => (.ok (), s.filter fun e => ¬ e.1 = name)

/-- Model of `tableInfoStore.ListTables`: a forward scan of the bucket collecting the
keys, i.e. the key column in iterator order. -/
def tisListTables (s : TIStore) : List Bytes := s.map Prod.fst

/-! ## Lexer and parser (`query` package)

Modelled from the spec: the repository's lexer, parser and statement AST
(`query` package) are not under `src/` — only `query/parser_test.go` is.  The
definitions below follow spec §4.3 (lexer), §4.4 (parser, expression grammar,
parameter mixing rule) and §3 (AST); the test file fixes the expected shapes.
Statement kinds other than `SELECT` and `DELETE` are not exercised by any
verified property and are not modelled: their leading keywords fall into the
syntax-error branch of the statement dispatch below. -/

/-- Errors of the query surface (spec §6.4 subset).  `fuelExhausted` is a
modelling artifact of the explicit recursion bound; the bounds supplied by the
entry points are always sufficient. -/
inductive QErr where
  | syntaxError
  | numberOverflow
  | mixedParameters
  | fuelExhausted
deriving DecidableEq

/-- Modelled from the spec: the keywords of §4.3 (the `query` package is not under `src/`). -/
inductive Keyword where
  | selectK | fromK | whereK | insertK | intoK | valuesK | recordsK
  | updateK | setKw | deleteK | createK | tableK | ifK | notK | existsK
  | andK | orK | trueK | falseK | nullK
deriving DecidableEq

/-- Modelled from the spec: the tokens of §4.3. -/
inductive Tok where
  | ident (s : String)
  | kw (k : Keyword)
  | intTok (n : Int)
  | floatTok (q : Rat)
  | strTok (s : String)
  | eqT | neqT | ltT | lteT | gtT | gteT
  | lparen | rparen | comma | semicolonT | colonT
  | questionT
  | namedT (s : String)
  | starT
deriving DecidableEq

/-- Modelled from the spec: case-insensitive keyword lookup (§4.3), on the
scanned identifier characters. -/
def kwOf (ids : List Char) : Option Keyword :=
  let u := String.mk (ids.map Char.toUpper)
  if u = "SELECT" then some .selectK
  else if u = "FROM" then some .fromK
  else if u = "WHERE" then some .whereK
  else if u = "INSERT" then some .insertK
  else if u = "INTO" then some .intoK
  else if u = "VALUES" then some .valuesK
  else if u = "RECORDS" then some .recordsK
  else if u = "UPDATE" then some .updateK
  else if u = "SET" then some .setKw
  else if u = "DELETE" then some .deleteK
  else if u = "CREATE" then some .createK
  else if u = "TABLE" then some .tableK
  else if u = "IF" then some .ifK
  else if u = "NOT" then some .notK
  else if u = "EXISTS" then some .existsK
  else if u = "AND" then some .andK
  else if u = "OR" then some .orK
  else if u = "TRUE" then some .trueK
  else if u = "FALSE" then some .falseK
  else if u = "NULL" then some .nullK
  else none

/-- Modelled from the spec: first character of an identifier, `[A-Za-z_]`. -/
def isIdentStart (c : Char) : Bool := c.isAlpha || c = '_'

/-- Modelled from the spec: subsequent identifier characters, `[A-Za-z0-9_]`. -/
def isIdentChar (c : Char) : Bool := c.isAlphanum || c = '_'

/-- The single-quote character. -/
def quoteChar : Char := Char.ofNat 39

/-- Modelled from the spec: whitespace, discarded by the lexer. -/
def isWs (c : Char) : Bool :=
  c.toNat = 32 || c.toNat = 9 || c.toNat = 10 || c.toNat = 13

/-- Numeric value of a digit run. -/
def digitsVal (ds : List Char) : Nat :=
  ds.foldl (fun a c => 10 * a + (c.toNat - 48)) 0

/-- Modelled from the spec: scans an optional exponent part `e[+-]?digits`; `none` when absent or
malformed (a malformed marker is left in place). -/
def scanExponent (cs : List Char) : Option (Int × List Char) :=
  match cs with
  | [] => none
  | c :: r =>
    if c = 'e' ∨ c = 'E' then
      match r with
      | [] => none
      | s :: r2 =>
        if s = '-' ∨ s = '+' then
          let (es, r3) := r2.span Char.isDigit
          if es = [] then none
          else some (if s = '-' then -(digitsVal es : Int) else (digitsVal es : Int), r3)
        else
          let (es, r3) := r.span Char.isDigit
          if es = [] then none else some ((digitsVal es : Int), r3)
    else none

/-- Modelled from the spec: scans a numeric literal starting at a digit run
(§4.3); a decimal
(containing `.` or an exponent) becomes a `Float64` token, an integer run
becomes an `Int64` token failing `NumberOverflow` outside the signed 64-bit
range. -/
def scanNumber (cs : List Char) (neg : Bool) : Except QErr (Tok × List Char) :=
  let (ds, rest) := cs.span Char.isDigit
  match rest with
  | '.' :: r2 =>
    let (fs, rest2) := r2.span Char.isDigit
    let base : Nat := digitsVal ds * 10 ^ fs.length + digitsVal fs
    let num : Int := if neg then -(base : Int) else (base : Int)
    match scanExponent rest2 with
    | some (e, rest3) =>
      .ok (.floatTok (mkRat (num * 10 ^ e.toNat) (10 ^ fs.length * 10 ^ (-e).toNat)), rest3)
    | none => .ok (.floatTok (mkRat num (10 ^ fs.length)), rest2)
  | _ =>
    match scanExponent rest with
    | some (e, rest3) =>
      let num : Int := if neg then -(digitsVal ds : Int) else (digitsVal ds : Int)
      .ok (.floatTok (mkRat (num * 10 ^ e.toNat) (10 ^ (-e).toNat)), rest3)
    | none =>
      let n : Int := if neg then -(digitsVal ds : Int) else (digitsVal ds : Int)
      if n < -(2 ^ 63) ∨ 2 ^ 63 - 1 < n then .error .numberOverflow
      else .ok (.intTok n, rest)

/-- Modelled from the spec: scans the body of a single-quoted string literal, `''` escaping an
embedded quote; returns the body and the remainder past the closing quote. -/
def scanStr : Nat → List Char → Except QErr (List Char × List Char)
  | 0, _ => .error .fuelExhausted
  | _ + 1, [] => .error .syntaxError
  | f + 1, c :: cs =>
    if c = quoteChar then
      match cs with
      | c2 :: r =>
        if c2 = quoteChar then do
          let (s, r') ← scanStr f r
          .ok (quoteChar :: s, r')
        else .ok ([], cs)
      | [] => .ok ([], [])
    else do
      let (s, r') ← scanStr f cs
      .ok (c :: s, r')

/-- Modelled from the spec: the single-pass scanner of §4.3.  Every step consumes at least one
character, so the fuel passed by `tokenize` never runs out. -/
def lexAux : Nat → List Char → Except QErr (List Tok)
  | 0, _ => .error .fuelExhausted
  | _ + 1, [] => .ok []
  | f + 1, c :: cs =>
    if isWs c then lexAux f cs
    else if c = '-' ∧ cs.head? = some '-' then
      lexAux f (cs.dropWhile fun d => ¬ d.toNat = 10)
    else if (c = '-' ∨ c = '+') ∧ ((cs.head?.map Char.isDigit).getD false) then do
      let (t, rest) ← scanNumber cs (c = '-')
      let ts ← lexAux f rest
      .ok (t :: ts)
    else if c.isDigit then do
      let (t, rest) ← scanNumber (c :: cs) false
      let ts ← lexAux f rest
      .ok (t :: ts)
    else if isIdentStart c then
      let (ids, rest) := (c :: cs).span isIdentChar
      let t := match kwOf ids with
        | some k => Tok.kw k
        | none => Tok.ident (String.mk ids)
      do
        let ts ← lexAux f rest
        .ok (t :: ts)
    else if c = quoteChar then do
      let (body, rest) ← scanStr (cs.length + 1) cs
      let ts ← lexAux f rest
      .ok (.strTok (String.mk body) :: ts)
    else if c = '$' then
      let (ids, rest) := cs.span isIdentChar
      if ids = [] then .error .syntaxError
      else do
        let ts ← lexAux f rest
        .ok (.namedT (String.mk ids) :: ts)
    else if c = '?' then do
      let ts ← lexAux f cs
      .ok (.questionT :: ts)
    else if c = '(' then do
      let ts ← lexAux f cs
      .ok (.lparen :: ts)
    else if c = ')' then do
      let ts ← lexAux f cs
      .ok (.rparen :: ts)
    else if c = ',' then do
      let ts ← lexAux f cs
      .ok (.comma :: ts)
    else if c = ';' then do
      let ts ← lexAux f cs
      .ok (.semicolonT :: ts)
    else if c = ':' then do
      let ts ← lexAux f cs
      .ok (.colonT :: ts)
    else if c = '*' then do
      let ts ← lexAux f cs
      .ok (.starT :: ts)
    else if c = '=' then do
      let ts ← lexAux f cs
      .ok (.eqT :: ts)
    else if c = '!' ∧ cs.head? = some '=' then do
      let ts ← lexAux f (cs.drop 1)
      .ok (.neqT :: ts)
    else if c = '<' ∧ cs.head? = some '=' then do
      let ts ← lexAux f (cs.drop 1)
      .ok (.lteT :: ts)
    else if c = '<' then do
      let ts ← lexAux f cs
      .ok (.ltT :: ts)
    else if c = '>' ∧ cs.head? = some '=' then do
      let ts ← lexAux f (cs.drop 1)
      .ok (.gteT :: ts)
    else if c = '>' then do
      let ts ← lexAux f cs
      .ok (.gtT :: ts)
    else .error .syntaxError

/-- Modelled from the spec: tokenises an input string. -/
def tokenize (s : String) : Except QErr (List Tok) :=
  lexAux (s.length + 1) s.toList

/-- Modelled from the spec: the expression AST of §3 — literals, fields, parameter placeholders
and the binary operators `= != < <= > >= AND OR`. -/
inductive Expr where
  | int64Value (n : Int)
  | float64Value (q : Rat)
  | stringValue (s : String)
  | boolValue (b : Bool)
  | nullValue
  | field (name : String)
  | positionalParam (n : Nat)
  | namedParam (name : String)
  | eq (l r : Expr)
  | neq (l r : Expr)
  | lt (l r : Expr)
  | lte (l r : Expr)
  | gt (l r : Expr)
  | gte (l r : Expr)
  | and (l r : Expr)
  | or (l r : Expr)
deriving DecidableEq

/-- Modelled from the spec: the statement AST of §3, restricted to the kinds the verified scenarios
exercise.  `Select` with an empty field list is `SELECT *`. -/
inductive Stmt where
  | select (fields : List String) (table : String) (cond : Option Expr)
  | delete (table : String) (cond : Option Expr)
deriving DecidableEq

/-- Modelled from the spec: per-statement parameter bookkeeping — how many positional and how many
named parameters have been read (spec §4.4 parameter mixing rule; positional
indexes are assigned in textual order starting at 1). -/
structure PState where
  posN : Nat
  namedN : Nat
deriving DecidableEq

/-- Which production the expression parser is working on: the grammar levels
of spec §4.4 plus the accumulator states of the two left-associative
repetition loops. -/
inductive PMode where
  | primM
  | cmpM
  | andM
  | andRest (acc : Expr)
  | orM
  | orRest (acc : Expr)
deriving DecidableEq

/-- Modelled from the spec: the recursive-descent expression parser of §4.4 —
`or := and (OR and)*`, `and := cmp (AND cmp)*`,
`cmp := primary (op primary)?`, `primary := literal | field | param |
'(' expr ')'`.  Parsing `?` with a named parameter already seen (or `$x`
with a positional one seen) fails `MixedParameters`.  The first argument is
an explicit recursion bound; entry points supply a sufficient one. -/
def parseE : Nat → PMode → PState → List Tok → Except QErr (Expr × PState × List Tok)
  | 0, _, _, _ => .error .fuelExhausted
  | f + 1, .primM, st, toks =>
    match toks with
    | .intTok n :: r => .ok (.int64Value n, st, r)
    | .floatTok q :: r => .ok (.float64Value q, st, r)
    | .strTok s :: r => .ok (.stringValue s, st, r)
    | .kw .trueK :: r => .ok (.boolValue true, st, r)
    | .kw .falseK :: r => .ok (.boolValue false, st, r)
    | .kw .nullK :: r => .ok (.nullValue, st, r)
    | .ident s :: r => .ok (.field s, st, r)
    | .questionT :: r =>
      if 0 < st.namedN then .error .mixedParameters
      else .ok (.positionalParam (st.posN + 1), ⟨st.posN + 1, st.namedN⟩, r)
    | .namedT s :: r =>
      if 0 < st.posN then .error .mixedParameters
      else .ok (.namedParam s, ⟨st.posN, st.namedN + 1⟩, r)
    | .lparen :: r => do
      let (e, st', r') ← parseE f .orM st r
      match r' with
      | .rparen :: r'' => .ok (e, st', r'')
      | _ => .error .syntaxError
    | _ => .error .syntaxError
  | f + 1, .cmpM, st, toks => do
    let (l, st1, r1) ← parseE f .primM st toks
    match r1 with
    | .eqT :: r2 => do
      let (rg, st2, r3) ← parseE f .primM st1 r2
      .ok (.eq l rg, st2, r3)
    | .neqT :: r2 => do
      let (rg, st2, r3) ← parseE f .primM st1 r2
      .ok (.neq l rg, st2, r3)
    | .ltT :: r2 => do
      let (rg, st2, r3) ← parseE f .primM st1 r2
      .ok (.lt l rg, st2, r3)
    | .lteT :: r2 => do
      let (rg, st2, r3) ← parseE f .primM st1 r2
      .ok (.lte l rg, st2, r3)
    | .gtT :: r2 => do
      let (rg, st2, r3) ← parseE f .primM st1 r2
      .ok (.gt l rg, st2, r3)
    | .gteT :: r2 => do
      let (rg, st2, r3) ← parseE f .primM st1 r2
      .ok (.gte l rg, st2, r3)
    | _ => .ok (l, st1, r1)
  | f + 1, .andM, st, toks => do
    let (l, st1, r1) ← parseE f .cmpM st toks
    parseE f (.andRest l) st1 r1
  | f + 1, .andRest acc, st, toks =>
    match toks with
    | .kw .andK :: r => do
      let (rg, st1, r1) ← parseE f .cmpM st r
      parseE f (.andRest (.and acc rg)) st1 r1
    | _ => .ok (acc, st, toks)
  | f + 1, .orM, st, toks => do
    let (l, st1, r1) ← parseE f .andM st toks
    parseE f (.orRest l) st1 r1
  | f + 1, .orRest acc, st, toks =>
    match toks with
    | .kw .orK :: r => do
      let (rg, st1, r1) ← parseE f .andM st r
      parseE f (.orRest (.or acc rg)) st1 r1
    | _ => .ok (acc, st, toks)

/-- A recursion bound sufficient for any expression over the given tokens. -/
def exprFuel (toks : List Tok) : Nat := 4 * toks.length + 8

/-- Modelled from the spec: `Parser.ParseExpr` on a string — tokenize, then parse one expression with
a fresh parameter state. -/
def parseExprString (s : String) : Except QErr Expr := do
  let toks ← tokenize s
  let (e, _, _) ← parseE (exprFuel toks) .orM ⟨0, 0⟩ toks
  .ok e

/-- Modelled from the spec: the optional `WHERE expr` clause. -/
def parseWhereOpt (f : Nat) (toks : List Tok) : Except QErr (Option Expr × List Tok) :=
  match toks with
  | .kw .whereK :: r => do
    let (e, _, r') ← parseE f .orM ⟨0, 0⟩ r
    .ok (some e, r')
  | _ => .ok (none, toks)

/-- Modelled from the spec: a non-empty comma-separated field list. -/
def parseFieldList : Nat → List Tok → Except QErr (List String × List Tok)
  | 0, _ => .error .fuelExhausted
  | f + 1, toks =>
    match toks with
    | .ident s :: .comma :: r => do
      let (fs, r') ← parseFieldList f r
      .ok (s :: fs, r')
    | .ident s :: r => .ok ([s], r)
    | _ => .error .syntaxError

/-- Modelled from the spec: statement dispatch by leading keyword (§4.4), with the `SELECT` and
`DELETE` grammars: `SELECT (* | field (, field)*) FROM table [WHERE expr]`
and `DELETE FROM table [WHERE expr]`. -/
def parseStatement (f : Nat) (toks : List Tok) : Except QErr (Stmt × List Tok) :=
  match toks with
  | .kw .selectK :: .starT :: r2 =>
    match r2 with
    | .kw .fromK :: .ident t :: r3 => do
      let (w, r4) ← parseWhereOpt f r3
      .ok (.select [] t w, r4)
    | _ => .error .syntaxError
  | .kw .selectK :: r => do
    let (fs, r2) ← parseFieldList f r
    match r2 with
    | .kw .fromK :: .ident t :: r3 => do
      let (w, r4) ← parseWhereOpt f r3
      .ok (.select fs t w, r4)
    | _ => .error .syntaxError
  | .kw .deleteK :: .kw .fromK :: .ident t :: r => do
    let (w, r') ← parseWhereOpt f r
    .ok (.delete t w, r')
  | _ => .error .syntaxError

/-- Modelled from the spec: the statement loop of `ParseQuery` (§4.4) — zero or more statements
separated and optionally terminated by `;`, consecutive separators elided. -/
def parseQueryAux : Nat → List Tok → Except QErr (List Stmt)
  | 0, _ => .error .fuelExhausted
  | _ + 1, [] => .ok []
  | f + 1, .semicolonT :: r => parseQueryAux f r
  | f + 1, toks => do
    let (st, r) ← parseStatement (exprFuel toks) toks
    match r with
    | [] => .ok [st]
    | .semicolonT :: r' => do
      let sts ← parseQueryAux f r'
      .ok (st :: sts)
    | _ => .error .syntaxError

/-- Modelled from the spec: `ParseQuery` on a string. -/
def parseQuery (s : String) : Except QErr (List Stmt) := do
  let toks ← tokenize s
  parseQueryAux (toks.length + 1) toks

/-- Model of `?`-parameters occur in the expression. -/
def hasPosParam : Expr → Bool
  | .positionalParam _ => true
  | .eq l r | .neq l r | .lt l r | .lte l r | .gt l r | .gte l r
  | .and l r | .or l r => hasPosParam l || hasPosParam r
  | _ => false

/-- Model of `$x`-parameters occur in the expression. -/
def hasNamedParam : Expr → Bool
  | .namedParam _ => true
  | .eq l r | .neq l r | .lt l r | .lte l r | .gt l r | .gte l r
  | .and l r | .or l r => hasNamedParam l || hasNamedParam r
  | _ => false

/-! ## Claim C1: the composite-key split -/

/-- Claim C1, counterexample: the claim that splitting a stored composite key
at the last `0x5F` byte recovers the originally supplied value is false when
the rowid itself contains `0x5F`: `Set(value = [0x61], rowid = [0x5F])`
writes the key `[0x61, 0x5F, 0x5F]`, and the cursor's split of that key at
its last `0x5F` yields `[0x61, 0x5F]`, not the supplied `[0x61]`. -/
theorem indexSet_lastSep_split_counterexample :
    indexSet [] [97] [95] = .ok [(compositeKey [97] [95], [95])] ∧
    cursorKeyValue (compositeKey [97] [95]) = some [97, 95] ∧
    ¬ ([97, 95] = ([97] : Bytes)) := by decide

/-- Claim C1, amended: `Index.Set(value, rowid)` with non-empty `value` writes
the composite key `value ‖ 0x5F ‖ rowid` (with the rowid as stored value),
and — provided the rowid contains no `0x5F` byte — splitting that key at its
last `0x5F` recovers exactly the supplied value, even when the value itself
contains `0x5F`; this split is the value component the cursor positioning
calls return, as `First` on a one-entry bucket shows. -/
theorem indexSet_compositeKey_split_recovers_value
    (bucket : List (Bytes × Bytes)) (v r : Bytes) (hv : v ≠ []) (hr : sepByte ∉ r) :
    indexSet bucket v r = .ok (kvPut bucket (compositeKey v r) r) ∧
    cursorKeyValue (compositeKey v r) = some v ∧
    cFirst ⟨[(compositeKey v r, r)], 0⟩ =
      (⟨[(compositeKey v r, r)], 1⟩, some (some v, r)) := by
  refine ⟨?_, cursorKeyValue_compositeKey v r hr, ?_⟩
  · simp [indexSet, hv]
  · simp [cFirst, boltFirst, boltElemAt, trimResult, cursorKeyValue_compositeKey v r hr]

/-- Witness for C1 amended, with a value that itself contains the separator
byte. -/
theorem indexSet_compositeKey_split_recovers_value_witness :
    indexSet [] [97, 95] [3] = .ok (kvPut [] (compositeKey [97, 95] [3]) [3]) ∧
    cursorKeyValue (compositeKey [97, 95] [3]) = some [97, 95] ∧
    cFirst ⟨[(compositeKey [97, 95] [3], [3])], 0⟩ =
      (⟨[(compositeKey [97, 95] [3], [3])], 1⟩, some (some [97, 95], [3])) :=
  indexSet_compositeKey_split_recovers_value [] [97, 95] [3] (by decide) (by decide)

/-! ## Claim C2: cursor behaviour past the ends -/

/-- Claim C2, counterexample: after exhausting a two-entry bucket forward
(the cursor stood on the last entry, position 2, and `Next` returned the end
sentinel), the cursor does *not* remain at the end position (3): the source's
`Next` resets the underlying cursor to `Last`, i.e. position 2 — observably,
a subsequent `Prev` returns the *first* pair, skipping the last one, which a
cursor resting at the end would have returned. -/
theorem cursorNext_past_end_counterexample :
    (cNext ⟨[([97, 95, 1], [1]), ([98, 95, 2], [2])], 2⟩).2 = none ∧
    ¬ ((cNext ⟨[([97, 95, 1], [1]), ([98, 95, 2], [2])], 2⟩).1.pos = 2 + 1) ∧
    (cPrev (cNext ⟨[([97, 95, 1], [1]), ([98, 95, 2], [2])], 2⟩).1).2 =
      some (some [97], [1]) := by decide

/-- Claim C2, amended: once `Next` has returned the end sentinel, a further
`Next` again returns `(nil, nil)` and leaves the cursor state unchanged —
but that state is the underlying cursor reset to the last entry, not an
end position (so a following `Prev` skips the last entry); symmetrically,
once `Prev` has returned the sentinel, a further `Prev` is a state-preserving
sentinel return with the underlying cursor reset to the first entry. -/
theorem cursorNext_exhausted_idempotent (c : BoltCursor) :
    ((cNext c).2 = none → cNext (cNext c).1 = ((cNext c).1, none)) ∧
    ((cPrev c).2 = none → cPrev (cPrev c).1 = ((cPrev c).1, none)) := by
  constructor
  · intro h
    cases hr : boltElemAt c (min (c.pos + 1) (c.keys.length + 1)) with
    | some e => simp [cNext, boltNext, hr] at h
    | none =>
      have h1 : (cNext c).1 = ⟨c.keys, c.keys.length⟩ := by
        simp [cNext, boltNext, hr, boltLast]
      rw [h1]
      have h2 : boltElemAt ⟨c.keys, c.keys.length⟩ (c.keys.length + 1) = none := by
        simp [boltElemAt, List.get?_eq_none]
      simp [cNext, boltNext, h2, boltLast]
  · intro h
    cases hr : boltElemAt c (c.pos - 1) with
    | some e => simp [cPrev, boltPrev, hr] at h
    | none =>
      have h1 : (cPrev c).1 = ⟨c.keys, 1⟩ := by
        simp [cPrev, boltPrev, hr, boltFirst]
      rw [h1]
      simp [cPrev, boltPrev, boltElemAt, boltFirst]

/-- Witness for C2 amended on a one-entry bucket. -/
theorem cursorNext_exhausted_idempotent_witness :
    cNext (cNext ⟨[([97, 95, 1], [1])], 1⟩).1 = ((cNext ⟨[([97, 95, 1], [1])], 1⟩).1, none) ∧
    cPrev (cPrev ⟨[([97, 95, 1], [1])], 1⟩).1 = ((cPrev ⟨[([97, 95, 1], [1])], 1⟩).1, none) :=
  ⟨(cursorNext_exhausted_idempotent ⟨[([97, 95, 1], [1])], 1⟩).1 (by decide),
   (cursorNext_exhausted_idempotent ⟨[([97, 95, 1], [1])], 1⟩).2 (by decide)⟩

/-! ## Catalog round-trip helpers -/

theorem mapM_convertToText_vtext (p : List String) :
    (p.map DValue.vtext).mapM convertToText = .ok p := by
  induction p with
  | nil => rfl
  | cons a p ih =>
    rw [List.map_cons, List.mapM_cons]
    have h1 : convertToText (DValue.vtext a) = Except.ok a := rfl
    rw [h1, ih]
    rfl

theorem fcScanDocument_toDocument (f : FieldConstraintM) :
    fcScanDocument (fcToDocument f) = .ok f := by
  obtain ⟨p, t, pk, nn⟩ := f
  have h1 : fcScanDocument (fcToDocument ⟨p, t, pk, nn⟩) =
      ((p.map DValue.vtext).mapM convertToText) >>= fun pp =>
        Except.ok ⟨pp, t, pk, nn⟩ := rfl
  rw [h1, mapM_convertToText_vtext]
  rfl

theorem mapM_scan_vdoc (t : TableConfigM) :
    ((t.map fun fc => DValue.vdoc (fcToDocument fc)).mapM fun x => do
      let doc ← convertToDocument x
      fcScanDocument doc) = Except.ok t := by
  induction t with
  | nil => rfl
  | cons fc t ih =>
    rw [List.map_cons, List.mapM_cons]
    have h2 : ((fun x => do
        let doc ← convertToDocument x
        fcScanDocument doc) (DValue.vdoc (fcToDocument fc)) :
          Except CatErr FieldConstraintM) = Except.ok fc :=
      fcScanDocument_toDocument fc
    simp only [h2, ih]
    rfl

theorem tableConfigScanDocument_toDocument (t : TableConfigM) :
    tableConfigScanDocument (tableConfigToDocument t) = .ok t := by
  have h1 : tableConfigScanDocument (tableConfigToDocument t) =
      ((t.map fun fc => DValue.vdoc (fcToDocument fc)).mapM fun x => do
        let doc ← convertToDocument x
        fcScanDocument doc) := rfl
  rw [h1]
  exact mapM_scan_vdoc t

theorem except_bind_ok {E A B : Type} (x : Except E A) (g : A → Except E B) (r : B)
    (h : (x >>= g) = .ok r) : ∃ a, x = .ok a ∧ g a = .ok r := by
  cases x with
  | error e =>
    rw [show (Except.error e >>= g : Except E B) = Except.error e from rfl] at h
    exact Except.noConfusion h
  | ok a =>
    refine ⟨a, rfl, ?_⟩
    rw [← show (Except.ok a >>= g : Except E B) = g a from rfl]
    exact h

theorem tiScanDocument_toDocument (ti : TableInfoM) (h : ti.storeID.length = 6) :
    tiScanDocument (tiToDocument ti) = .ok ti := by
  obtain ⟨sid, cfg⟩ := ti
  have h6 : sid.length = 6 := h
  have h1 : tiScanDocument (tiToDocument ⟨sid, cfg⟩) =
      (tableConfigScanDocument (tableConfigToDocument cfg)) >>= fun c =>
        Except.ok ⟨sid.take 6 ++ List.replicate (6 - sid.length) 0, c⟩ := rfl
  rw [h1, tableConfigScanDocument_toDocument]
  have h2 : sid.take 6 ++ List.replicate (6 - sid.length) 0 = sid := by
    rw [h6, List.take_of_length_le (le_of_eq h6)]
    simp
  simp only [h2]
  rfl

theorem tiScanDocument_storeID_length (d : Doc) (ti : TableInfoM)
    (h : tiScanDocument d = .ok ti) : ti.storeID.length = 6 := by
  unfold tiScanDocument at h
  obtain ⟨v, h1, h⟩ := except_bind_ok _ _ _ h
  obtain ⟨b, h2, h⟩ := except_bind_ok _ _ _ h
  obtain ⟨v2, h3, h⟩ := except_bind_ok _ _ _ h
  obtain ⟨doc, h4, h⟩ := except_bind_ok _ _ _ h
  obtain ⟨cfg, h5, h⟩ := except_bind_ok _ _ _ h
  have h7 : Except.ok (⟨b.take 6 ++ List.replicate (6 - b.length) 0, cfg⟩ : TableInfoM) =
      Except.ok ti := h
  injection h7 with h8
  rw [← h8]
  simp [List.length_take, List.length_replicate]
  omega

/-! ## Claim C3: store-id uniqueness -/

/-- Claim C3, failing run: `tableInfoStore.Insert` checks a candidate store id
with `t.st.Get(id[:])` — a lookup of the id *as a key of the table-info
store*, whose keys are table names — so it never compares the candidate with
the store ids of existing tables.  When `generateStoreID` returns the same
six bytes for two inserts (same Unix second, same two random bytes), both
inserts succeed and two distinct tables end up with equal store ids,
violating the claimed invariant. -/
theorem tisInsert_duplicate_storeID_run :
    (tisInsert [] [116, 49] [] [generateStoreID 0 0 0]).1 =
      .ok ⟨generateStoreID 0 0 0, []⟩ ∧
    (tisInsert (tisInsert [] [116, 49] [] [generateStoreID 0 0 0]).2
        [116, 50] [] [generateStoreID 0 0 0]).1 =
      .ok ⟨generateStoreID 0 0 0, []⟩ ∧
    ¬ ([116, 49] = ([116, 50] : Bytes)) := by decide

/-! ## Claim C4: duplicate-name insert -/

/-- Claim C4: inserting a table name that is already present fails with
`TableAlreadyExists` and leaves the store unchanged; after a successful
`Insert` followed by such a failure, `Get` on that name still returns the
table info produced by the first insert (store id included). -/
theorem tisInsert_duplicate_name (s : TIStore) (name : Bytes) (cfg : TableConfigM)
    (cands : List Bytes) (ti : TableInfoM) (s1 : TIStore)
    (hlen : ∀ id ∈ cands, id.length = 6)
    (h : tisInsert s name cfg cands = (.ok ti, s1)) :
    tisInsert s1 name cfg cands = (.error .tableAlreadyExists, s1) ∧
    tisGet s1 name = .ok ti := by
  unfold tisInsert at h
  by_cases hname : (kvGet s name).isSome
  · rw [if_pos hname] at h
    exact absurd (congrArg Prod.fst h) (by simp)
  · rw [if_neg hname] at h
    cases hf : List.find? (fun id => (kvGet s id).isNone) cands with
    | none =>
      rw [hf] at h
      exact absurd (congrArg Prod.fst h) (by simp)
    | some id =>
      rw [hf] at h
      have hti : ti = ⟨id, cfg⟩ := by
        have := congrArg Prod.fst h
        simp at this
        exact this.symm
      have hs1 : s1 = kvPut s name (tiToDocument ⟨id, cfg⟩) := by
        have := congrArg Prod.snd h
        simp at this
        exact this.symm
      have hget : kvGet s1 name = some (tiToDocument ⟨id, cfg⟩) := by
        rw [hs1]
        exact kvGet_put_self s name _
      constructor
      · unfold tisInsert
        rw [if_pos (by simp [hget])]
      · have hid6 : id.length = 6 := hlen id (List.mem_of_find?_eq_some hf)
        rw [hti]
        unfold tisGet
        rw [hget]
        exact tiScanDocument_toDocument ⟨id, cfg⟩ hid6

/-- Witness for C4 on an initially empty store. -/
theorem tisInsert_duplicate_name_witness :
    tisInsert (tisInsert [] [117] [] [generateStoreID 0 3 4]).2 [117] []
        [generateStoreID 0 3 4] =
      (.error .tableAlreadyExists, (tisInsert [] [117] [] [generateStoreID 0 3 4]).2) ∧
    tisGet (tisInsert [] [117] [] [generateStoreID 0 3 4]).2 [117] =
      .ok ⟨generateStoreID 0 3 4, []⟩ :=
  tisInsert_duplicate_name [] [117] [] [generateStoreID 0 3 4]
    ⟨generateStoreID 0 3 4, []⟩ (tisInsert [] [117] [] [generateStoreID 0 3 4]).2
    (by decide) rfl

/-! ## Claim C8: ListTables order -/

theorem mem_map_fst_iff_kvGet_isSome {V : Type} (s : List (Bytes × V)) (n : Bytes) :
    n ∈ s.map Prod.fst ↔ (kvGet s n).isSome := by
  induction s with
  | nil => simp [kvGet]
  | cons e rest ih =>
    obtain ⟨k, v⟩ := e
    by_cases h : k = n
    · subst h
      simp [kvGet]
    · have hne : ¬ n = k := fun hh => h hh.symm
      simp [kvGet, h, hne, ih]

/-- Claim C8: given the KV iterator contract — the store's entries are in
strictly ascending lexicographic key order — `ListTables` returns exactly the
names present in the store (a name is listed iff `Get` finds it), in strictly
ascending lexicographic order. -/
theorem tisListTables_sorted (s : TIStore)
    (hs : List.Pairwise (fun a b => lexLtB a.1 b.1 = true) s) :
    List.Pairwise (fun a b => lexLtB a b = true) (tisListTables s) ∧
    ∀ n : Bytes, n ∈ tisListTables s ↔ (kvGet s n).isSome := by
  constructor
  · simpa [tisListTables, List.pairwise_map] using hs
  · intro n
    exact mem_map_fst_iff_kvGet_isSome s n

/-- Witness for C8 on a concrete two-table store. -/
theorem tisListTables_sorted_witness :
    List.Pairwise (fun a b => lexLtB a b = true)
      (tisListTables [([97], []), ([98, 99], [])]) :=
  (tisListTables_sorted [([97], []), ([98, 99], [])] (by decide)).1

/-! ## Claim C9: TableConfig document round-trip -/

/-- Claim C9: for every `TableConfig`, decoding the document produced by
`ToDocument` with `ScanDocument` yields the same configuration: in
particular the constraint list keeps its length and every constraint's
path, type, primary-key and not-null flags are unchanged. -/
theorem tableConfig_document_roundtrip (t : TableConfigM) :
    tableConfigScanDocument (tableConfigToDocument t) = .ok t :=
  tableConfigScanDocument_toDocument t

/-! ## Claim C10: Replace is a frame on the rest of the catalog -/

/-- Claim C10: a successful `Replace(name, cfg)` keeps the entry's store id
(the decoded info after the call carries the same store id as before, with
the new configuration) and leaves every other table name's entry untouched. -/
theorem tisReplace_frame (s : TIStore) (name : Bytes) (cfg : TableConfigM)
    (s' : TIStore) (h : tisReplace s name cfg = (.ok (), s')) :
    (∃ ti, tisGet s name = .ok ti ∧ tisGet s' name = .ok ⟨ti.storeID, cfg⟩) ∧
    ∀ other : Bytes, ¬ other = name → kvGet s' other = kvGet s other := by
  unfold tisReplace at h
  cases hg : tisGet s name with
  | error e =>
    rw [hg] at h
    exact absurd (congrArg Prod.fst h) (by simp)
  | ok ti =>
    rw [hg] at h
    have hs' : s' = kvPut s name (tiToDocument ⟨ti.storeID, cfg⟩) := by
      have := congrArg Prod.snd h
      simp at this
      exact this.symm
    have hlen : ti.storeID.length = 6 := by
      unfold tisGet at hg
      cases hk : kvGet s name with
      | none => rw [hk] at hg; exact Except.noConfusion hg
      | some d =>
        rw [hk] at hg
        exact tiScanDocument_storeID_length d ti hg
    constructor
    · refine ⟨ti, rfl, ?_⟩
      unfold tisGet
      rw [hs', kvGet_put_self]
      exact tiScanDocument_toDocument ⟨ti.storeID, cfg⟩ hlen
    · intro other hother
      rw [hs']
      exact kvGet_put_other s name other _ hother

/-- Witness for C10: replacing the configuration of the only table of a
one-table store keeps its store id. -/
theorem tisReplace_frame_witness :
    ∃ ti, tisGet (kvPut [] [117] (tiToDocument ⟨[1, 2, 3, 4, 5, 6], []⟩)) [117] =
        .ok ti ∧
      tisGet (tisReplace (kvPut [] [117] (tiToDocument ⟨[1, 2, 3, 4, 5, 6], []⟩))
          [117] [⟨["a"], 3, true, false⟩]).2 [117] =
        .ok ⟨ti.storeID, [⟨["a"], 3, true, false⟩]⟩ :=
  (tisReplace_frame (kvPut [] [117] (tiToDocument ⟨[1, 2, 3, 4, 5, 6], []⟩)) [117]
    [⟨["a"], 3, true, false⟩]
    (tisReplace (kvPut [] [117] (tiToDocument ⟨[1, 2, 3, 4, 5, 6], []⟩))
      [117] [⟨["a"], 3, true, false⟩]).2 rfl).1

/-! ## Claim C5: expression precedence and associativity -/

/-- Claim C5: `ParseExpr` on `"age >= 10 AND age > $age OR age < 10.4"` yields
`Or(And(Gte(Field age, Int64 10), Gt(Field age, NamedParam age)),
Lt(Field age, Float64 10.4))` — `AND` binds tighter than `OR`; the further
conjuncts show that `OR` and `AND` are left-associative and that a
comparison consumes at most one operator (no chaining: the second `=` of
`1 = 2 = 3` is left unconsumed by the comparison level). -/
theorem parseExpr_precedence :
    parseExprString "age >= 10 AND age > $age OR age < 10.4" =
      .ok (.or (.and (.gte (.field "age") (.int64Value 10))
                     (.gt (.field "age") (.namedParam "age")))
               (.lt (.field "age") (.float64Value (10.4 : Rat)))) ∧
    parseExprString "age = 1 OR age = 2 OR age = 3" =
      .ok (.or (.or (.eq (.field "age") (.int64Value 1))
                    (.eq (.field "age") (.int64Value 2)))
               (.eq (.field "age") (.int64Value 3))) ∧
    parseExprString "age = 1 AND age = 2 AND age = 3" =
      .ok (.and (.and (.eq (.field "age") (.int64Value 1))
                      (.eq (.field "age") (.int64Value 2)))
                (.eq (.field "age") (.int64Value 3))) ∧
    parseE 8 .cmpM ⟨0, 0⟩ [.intTok 1, .eqT, .intTok 2, .eqT, .intTok 3] =
      .ok (.eq (.int64Value 1) (.int64Value 2), ⟨0, 0⟩, [.eqT, .intTok 3]) := by
  rw [show (10.4 : Rat) = mkRat 52 5 from by norm_num [mkRat]]
  refine ⟨?_, ?_, ?_, ?_⟩ <;> decide

/-! ## Claim C7: multi-statement parsing and separators -/

/-- Claim C7: `ParseQuery` on a purely-separator input yields the empty
statement list, and on `"SELECT * FROM foo;;;DELETE FROM foo;"` yields
exactly the two statements, in textual order, the empty statements between
consecutive separators elided. -/
theorem parseQuery_separators :
    parseQuery ";;;" = .ok [] ∧
    parseQuery "SELECT * FROM foo;;;DELETE FROM foo;" =
      .ok [.select [] "foo" none, .delete "foo" none] := by
  refine ⟨?_, ?_⟩ <;> decide

/-! ## Claim C6: parameter mixing

The discipline: the parser counts positional and named parameters per
statement; a successful parse never has both counters positive, and a parsed
subexpression containing a parameter of a kind forces that counter positive.
-/

/-- Post-state/result contract of one expression-parser step starting at
`st`. -/
def stepOk (st st' : PState) (e : Expr) : Prop :=
  (st'.posN = 0 ∨ st'.namedN = 0) ∧ st.posN ≤ st'.posN ∧ st.namedN ≤ st'.namedN ∧
  (hasPosParam e = true → 0 < st'.posN) ∧ (hasNamedParam e = true → 0 < st'.namedN)

/-- Entry contract for the accumulator modes: a parameter inside the
accumulated left operand is already counted. -/
def pmodeParamOk (m : PMode) (st : PState) : Prop :=
  match m with
  | .andRest a =>
    (hasPosParam a = true → 0 < st.posN) ∧ (hasNamedParam a = true → 0 < st.namedN)
  | .orRest a =>
    (hasPosParam a = true → 0 < st.posN) ∧ (hasNamedParam a = true → 0 < st.namedN)
  | _ => True

theorem except_ok_bind {E A B : Type} (a : A) (g : A → Except E B) :
    (Except.ok a >>= g) = g a := rfl

theorem except_error_bind {E A B : Type} (e : E) (g : A → Except E B) :
    ((Except.error e : Except E A) >>= g) = Except.error e := rfl

theorem stepOk_leaf (st : PState) (e : Expr) (hinv : st.posN = 0 ∨ st.namedN = 0)
    (hp : hasPosParam e = false) (hn : hasNamedParam e = false) : stepOk st st e := by
  refine ⟨hinv, le_refl _, le_refl _, ?_, ?_⟩
  · rw [hp]; intro hc; exact absurd hc (by simp)
  · rw [hn]; intro hc; exact absurd hc (by simp)

theorem stepOk_mono (st st1 st' : PState) (rg e : Expr)
    (h1 : stepOk st st1 rg) (h2 : stepOk st1 st' e) : stepOk st st' e := by
  obtain ⟨_, hp1, hn1, _, _⟩ := h1
  obtain ⟨hi2, hp2, hn2, hpp2, hnn2⟩ := h2
  exact ⟨hi2, le_trans hp1 hp2, le_trans hn1 hn2, hpp2, hnn2⟩

theorem stepOk_comb (st st1 st2 : PState) (l rg e : Expr)
    (hl : stepOk st st1 l) (hr : stepOk st1 st2 rg)
    (hp : hasPosParam e = (hasPosParam l || hasPosParam rg))
    (hn : hasNamedParam e = (hasNamedParam l || hasNamedParam rg)) :
    stepOk st st2 e := by
  obtain ⟨_, hp1, hn1, hpp1, hnn1⟩ := hl
  obtain ⟨hi2, hp2, hn2, hpp2, hnn2⟩ := hr
  refine ⟨hi2, le_trans hp1 hp2, le_trans hn1 hn2, ?_, ?_⟩
  · rw [hp]
    intro hor
    rcases (Bool.or_eq_true _ _).mp hor with hc | hc
    · exact lt_of_lt_of_le (hpp1 hc) hp2
    · exact hpp2 hc
  · rw [hn]
    intro hor
    rcases (Bool.or_eq_true _ _).mp hor with hc | hc
    · exact lt_of_lt_of_le (hnn1 hc) hn2
    · exact hnn2 hc

theorem parseE_param_discipline (f : Nat) :
    ∀ m st toks e st' rest,
      (st.posN = 0 ∨ st.namedN = 0) → pmodeParamOk m st →
      parseE f m st toks = .ok (e, st', rest) → stepOk st st' e := by
  induction f with
  | zero =>
    intro m st toks e st' rest _ _ h
    exact Except.noConfusion h
  | succ f ih =>
    intro m st toks e st' rest hinv hacc h
    cases m with
    | primM =>
      cases toks with
      | nil => exact Except.noConfusion h
      | cons t r =>
        cases t
        case intTok n =>
          simp only [parseE, Except.ok.injEq, Prod.mk.injEq] at h
          obtain ⟨he, hst, hrest⟩ := h
          subst he
          subst hst
          exact stepOk_leaf st _ hinv rfl rfl
        case floatTok q =>
          simp only [parseE, Except.ok.injEq, Prod.mk.injEq] at h
          obtain ⟨he, hst, hrest⟩ := h
          subst he
          subst hst
          exact stepOk_leaf st _ hinv rfl rfl
        case strTok s =>
          simp only [parseE, Except.ok.injEq, Prod.mk.injEq] at h
          obtain ⟨he, hst, hrest⟩ := h
          subst he
          subst hst
          exact stepOk_leaf st _ hinv rfl rfl
        case ident s =>
          simp only [parseE, Except.ok.injEq, Prod.mk.injEq] at h
          obtain ⟨he, hst, hrest⟩ := h
          subst he
          subst hst
          exact stepOk_leaf st _ hinv rfl rfl
        case kw k =>
          cases k
          case trueK =>
            simp only [parseE, Except.ok.injEq, Prod.mk.injEq] at h
            obtain ⟨he, hst, hrest⟩ := h
            subst he
            subst hst
            exact stepOk_leaf st _ hinv rfl rfl
          case falseK =>
            simp only [parseE, Except.ok.injEq, Prod.mk.injEq] at h
            obtain ⟨he, hst, hrest⟩ := h
            subst he
            subst hst
            exact stepOk_leaf st _ hinv rfl rfl
          case nullK =>
            simp only [parseE, Except.ok.injEq, Prod.mk.injEq] at h
            obtain ⟨he, hst, hrest⟩ := h
            subst he
            subst hst
            exact stepOk_leaf st _ hinv rfl rfl
          all_goals exact Except.noConfusion h
        case questionT =>
          simp only [parseE] at h
          by_cases hq : 0 < st.namedN
          · rw [if_pos hq] at h
            exact Except.noConfusion h
          · rw [if_neg hq] at h
            simp only [Except.ok.injEq, Prod.mk.injEq] at h
            obtain ⟨he, hst, hrest⟩ := h
            subst he
            subst hst
            have hn0 : st.namedN = 0 := Nat.le_zero.mp (Nat.not_lt.mp hq)
            refine ⟨Or.inr hn0, Nat.le_succ _, le_refl _, fun _ => Nat.succ_pos _, ?_⟩
            intro hc
            exact Bool.noConfusion hc
        case namedT s =>
          simp only [parseE] at h
          by_cases hq : 0 < st.posN
          · rw [if_pos hq] at h
            exact Except.noConfusion h
          · rw [if_neg hq] at h
            simp only [Except.ok.injEq, Prod.mk.injEq] at h
            obtain ⟨he, hst, hrest⟩ := h
            subst he
            subst hst
            have hp0 : st.posN = 0 := Nat.le_zero.mp (Nat.not_lt.mp hq)
            refine ⟨Or.inl hp0, le_refl _, Nat.le_succ _, ?_, fun _ => Nat.succ_pos _⟩
            intro hc
            exact Bool.noConfusion hc
        case lparen =>
          simp only [parseE] at h
          cases hin : parseE f .orM st r with
          | error err =>
            rw [hin, except_error_bind] at h
            exact Except.noConfusion h
          | ok res =>
            obtain ⟨e₁, st₁, r₁⟩ := res
            rw [hin] at h
            simp only [except_ok_bind] at h
            cases r₁ with
            | nil => exact Except.noConfusion h
            | cons t₁ r₂ =>
              cases t₁
              case rparen =>
                simp only [Except.ok.injEq, Prod.mk.injEq] at h
                obtain ⟨he, hst, hrest⟩ := h
                subst he
                subst hst
                exact ih .orM st r e₁ st₁ (Tok.rparen :: r₂) hinv True.intro hin
              all_goals exact Except.noConfusion h
        all_goals exact Except.noConfusion h
    | cmpM =>
      simp only [parseE] at h
      cases hin1 : parseE f .primM st toks with
      | error err =>
        rw [hin1, except_error_bind] at h
        exact Except.noConfusion h
      | ok res =>
        obtain ⟨l, st1, r1⟩ := res
        rw [hin1] at h
        simp only [except_ok_bind] at h
        have hl := ih .primM st toks l st1 r1 hinv True.intro hin1
        cases r1 with
        | nil =>
          simp only [Except.ok.injEq, Prod.mk.injEq] at h
          obtain ⟨he, hst, hrest⟩ := h
          subst he
          subst hst
          exact hl
        | cons t1 r2 =>
          cases t1 <;> first
            | (simp only [] at h
               simp only [Except.ok.injEq, Prod.mk.injEq] at h
               obtain ⟨he, hst, hrest⟩ := h
               subst he
               subst hst
               exact hl)
            | (simp only [] at h
               cases hin2 : parseE f .primM st1 r2 with
               | error err =>
                 rw [hin2, except_error_bind] at h
                 exact Except.noConfusion h
               | ok res2 =>
                 obtain ⟨rg, st2, r3⟩ := res2
                 rw [hin2] at h
                 simp only [except_ok_bind, Except.ok.injEq, Prod.mk.injEq] at h
                 obtain ⟨he, hst, hrest⟩ := h
                 subst he
                 subst hst
                 exact stepOk_comb st st1 st2 l rg _ hl
                   (ih .primM st1 r2 rg st2 r3 hl.1 True.intro hin2) rfl rfl)
    | andM =>
      simp only [parseE] at h
      cases hin1 : parseE f .cmpM st toks with
      | error err =>
        rw [hin1, except_error_bind] at h
        exact Except.noConfusion h
      | ok res =>
        obtain ⟨l, st1, r1⟩ := res
        rw [hin1] at h
        simp only [except_ok_bind] at h
        have hl := ih .cmpM st toks l st1 r1 hinv True.intro hin1
        exact stepOk_mono st st1 st' l e hl
          (ih (.andRest l) st1 r1 e st' rest hl.1 ⟨hl.2.2.2.1, hl.2.2.2.2⟩ h)
    | orM =>
      simp only [parseE] at h
      cases hin1 : parseE f .andM st toks with
      | error err =>
        rw [hin1, except_error_bind] at h
        exact Except.noConfusion h
      | ok res =>
        obtain ⟨l, st1, r1⟩ := res
        rw [hin1] at h
        simp only [except_ok_bind] at h
        have hl := ih .andM st toks l st1 r1 hinv True.intro hin1
        exact stepOk_mono st st1 st' l e hl
          (ih (.orRest l) st1 r1 e st' rest hl.1 ⟨hl.2.2.2.1, hl.2.2.2.2⟩ h)
    | andRest acc =>
      obtain ⟨ha1, ha2⟩ := hacc
      cases toks with
      | nil =>
        simp only [parseE, Except.ok.injEq, Prod.mk.injEq] at h
        obtain ⟨he, hst, hrest⟩ := h
        subst he
        subst hst
        exact ⟨hinv, le_refl _, le_refl _, ha1, ha2⟩
      | cons t r =>
        cases t <;> first
          | (simp only [parseE, Except.ok.injEq, Prod.mk.injEq] at h
             obtain ⟨he, hst, hrest⟩ := h
             subst he
             subst hst
             exact ⟨hinv, le_refl _, le_refl _, ha1, ha2⟩)
          | (rename_i k
             cases k <;> first
               | (simp only [parseE, Except.ok.injEq, Prod.mk.injEq] at h
                  obtain ⟨he, hst, hrest⟩ := h
                  subst he
                  subst hst
                  exact ⟨hinv, le_refl _, le_refl _, ha1, ha2⟩)
               | (simp only [parseE] at h
                  cases hin1 : parseE f .cmpM st r with
                  | error err =>
                    rw [hin1, except_error_bind] at h
                    exact Except.noConfusion h
                  | ok res =>
                    obtain ⟨rg, st1, r1⟩ := res
                    rw [hin1] at h
                    simp only [except_ok_bind] at h
                    have hr := ih .cmpM st r rg st1 r1 hinv True.intro hin1
                    have hnext : pmodeParamOk (.andRest (.and acc rg)) st1 := by
                      constructor
                      · intro hc
                        rcases (Bool.or_eq_true _ _).mp hc with hc' | hc'
                        · exact lt_of_lt_of_le (ha1 hc') hr.2.1
                        · exact hr.2.2.2.1 hc'
                      · intro hc
                        rcases (Bool.or_eq_true _ _).mp hc with hc' | hc'
                        · exact lt_of_lt_of_le (ha2 hc') hr.2.2.1
                        · exact hr.2.2.2.2 hc'
                    exact stepOk_mono st st1 st' rg e hr
                      (ih (.andRest (.and acc rg)) st1 r1 e st' rest hr.1 hnext h)))
    | orRest acc =>
      obtain ⟨ha1, ha2⟩ := hacc
      cases toks with
      | nil =>
        simp only [parseE, Except.ok.injEq, Prod.mk.injEq] at h
        obtain ⟨he, hst, hrest⟩ := h
        subst he
        subst hst
        exact ⟨hinv, le_refl _, le_refl _, ha1, ha2⟩
      | cons t r =>
        cases t <;> first
          | (simp only [parseE, Except.ok.injEq, Prod.mk.injEq] at h
             obtain ⟨he, hst, hrest⟩ := h
             subst he
             subst hst
             exact ⟨hinv, le_refl _, le_refl _, ha1, ha2⟩)
          | (rename_i k
             cases k <;> first
               | (simp only [parseE, Except.ok.injEq, Prod.mk.injEq] at h
                  obtain ⟨he, hst, hrest⟩ := h
                  subst he
                  subst hst
                  exact ⟨hinv, le_refl _, le_refl _, ha1, ha2⟩)
               | (simp only [parseE] at h
                  cases hin1 : parseE f .andM st r with
                  | error err =>
                    rw [hin1, except_error_bind] at h
                    exact Except.noConfusion h
                  | ok res =>
                    obtain ⟨rg, st1, r1⟩ := res
                    rw [hin1] at h
                    simp only [except_ok_bind] at h
                    have hr := ih .andM st r rg st1 r1 hinv True.intro hin1
                    have hnext : pmodeParamOk (.orRest (.or acc rg)) st1 := by
                      constructor
                      · intro hc
                        rcases (Bool.or_eq_true _ _).mp hc with hc' | hc'
                        · exact lt_of_lt_of_le (ha1 hc') hr.2.1
                        · exact hr.2.2.2.1 hc'
                      · intro hc
                        rcases (Bool.or_eq_true _ _).mp hc with hc' | hc'
                        · exact lt_of_lt_of_le (ha2 hc') hr.2.2.1
                        · exact hr.2.2.2.2 hc'
                    exact stepOk_mono st st1 st' rg e hr
                      (ih (.orRest (.or acc rg)) st1 r1 e st' rest hr.1 hnext h)))

/-- Claim C6: a successfully parsed expression never contains both a
positional (`?`) and a named (`$x`) parameter — the parser rejects the
second kind as soon as both would occur — and in particular parsing
`"age >= ? AND age > $foo OR age < ?"` fails with `MixedParameters` and
produces no expression. -/
theorem parseExpr_mixed_parameters :
    (∀ s e, parseExprString s = .ok e →
      ¬ (hasPosParam e = true ∧ hasNamedParam e = true)) ∧
    parseExprString "age >= ? AND age > $foo OR age < ?" = .error .mixedParameters := by
  constructor
  · intro s e h hc
    obtain ⟨hp, hn⟩ := hc
    unfold parseExprString at h
    cases ht : tokenize s with
    | error err =>
      rw [ht, except_error_bind] at h
      exact Except.noConfusion h
    | ok toks =>
      rw [ht] at h
      simp only [except_ok_bind] at h
      cases hp2 : parseE (exprFuel toks) .orM ⟨0, 0⟩ toks with
      | error err =>
        rw [hp2, except_error_bind] at h
        exact Except.noConfusion h
      | ok res =>
        obtain ⟨e0, st', rest⟩ := res
        rw [hp2] at h
        simp only [except_ok_bind, Except.ok.injEq] at h
        subst h
        have hd := parseE_param_discipline (exprFuel toks) .orM ⟨0, 0⟩ toks e0 st' rest
          (Or.inl rfl) True.intro hp2
        rcases hd.1 with h0 | h0
        · have hlt := hd.2.2.2.1 hp
          omega
        · have hlt := hd.2.2.2.2 hn
          omega
  · decide

/-- Witness for C6: the single-positional-parameter expression parsed from
`"age = ?"` indeed does not contain both parameter kinds. -/
theorem parseExpr_mixed_parameters_witness :
    ¬ (hasPosParam (.eq (.field "age") (.positionalParam 1)) = true ∧
       hasNamedParam (.eq (.field "age") (.positionalParam 1)) = true) :=
  parseExpr_mixed_parameters.1 "age = ?"
    (.eq (.field "age") (.positionalParam 1)) (by decide)
